import Mathlib

/-!
Shallow embedding of the revise-tui spaced-repetition manager
(src/store.rs, src/usecase.rs, src/app.rs, src/components/home.rs),
with theorems settling the frozen claims about its specification.

Modelling conventions:
- SQLite rows become Lean structures; the database becomes `StoreState`,
  a record of row lists kept in insertion order together with the next
  autoincrement ids.
- `DateTime<Utc>` timestamps are modelled at day granularity as `Int`
  (the code only ever compares timestamps and adds whole days to them).
- `f32` values coming out of the external `fsrs` crate are modelled as `Rat`;
  the Rust numeric casts `as u32` / `as i64` and `f32::round` are modelled
  exactly on those rationals.
- Rust panics (`unwrap`, `expect`, explicit aborts) are modelled by `Option`
  (`none` = the call aborts) or, for `revise_card`, by
  `Except StoreState StoreState` where `.error s` means the call aborts
  while the store is still in state `s`.
- The external `fsrs` crate is treated as an oracle: an arbitrary pure
  function from the optional prior memory state and the elapsed days to the
  four candidate next states (the desired-retention argument is the literal
  0.9 at both call sites, so it is not a parameter of the oracle).
-/

namespace Revise

/-- `store.rs`: `pub type ID = i64`. Ids stay small, so plain `Int`. -/
abbrev ID := Int

/-- `DateTime<Utc>` at day granularity. -/
abbrev Time := Int

/-- `decks` table row (`id`, `name`; `created_at` is written but never read
back by any query in the source, so it is omitted). -/
structure Deck where
  id : ID
  name : String
deriving DecidableEq

/-- `cards` table row. -/
structure CardRow where
  id : ID
  deck_id : ID
  title : String
  desc : String
  next_show_date : Time
  created_at : Time
  suspended : Bool
deriving DecidableEq

/-- `revlog` table row / `usecase::Review`. `stability` and `difficulty`
are `f32` in the source, modelled as `Rat`. -/
structure ReviewRow where
  id : ID
  card_id : ID
  last_interval : Nat
  interval : Nat
  review_time : Time
  stability : Rat
  difficulty : Rat
deriving DecidableEq

/-- `usecase::Card`: the deck-joined projection returned by `get_card`. -/
structure Card where
  id : ID
  deck_id : ID
  deck : String
  title : String
  desc : String
  next_show_date : Time
  created_at : Time
deriving DecidableEq

/-- `usecase::CardSummary`: the projection returned by `list_card_summaries`. -/
structure CardSummary where
  id : ID
  deck : String
  title : String
  next_show_date : Time
  created_at : Time
deriving DecidableEq

/-- The SQLite database of `SqliteStore`, with autoincrement counters. -/
structure StoreState where
  decks : List Deck
  cards : List CardRow
  revlog : List ReviewRow
  next_deck_id : ID
  next_rev_id : ID
deriving DecidableEq

/-- `error.rs`: the one error constructor the modelled operations return. -/
inductive ReviseError where
  | notFound (id : ID)
deriving DecidableEq

/-- Floor of a rational as an integer (`den` is positive, so flooring
division of `num` by `den`). -/
def ratFloor (q : Rat) : Int := q.num.fdiv q.den

/-- Ceiling of a rational as an integer. -/
def ratCeil (q : Rat) : Int := -ratFloor (-q)

/-- Truncation toward zero, as Rust numeric casts do. -/
def ratTrunc (q : Rat) : Int := if 0 ≤ q then ratFloor q else ratCeil q

/-- `f32::round`: nearest integer, halfway cases away from zero. For
`q ≥ 0` this is `⌊q + 1/2⌋`, computed on the numerator and denominator as
`⌊(2 num + den) / (2 den)⌋`; a negative value rounds as the negation of its
negation. -/
def rustRound (q : Rat) : Int :=
  if 0 ≤ q then (2 * q.num + q.den).fdiv (2 * q.den)
  else -((2 * (-q.num) + q.den).fdiv (2 * q.den))

/-- Rust `f32 as u32`: truncate toward zero, saturating into `[0, 2^32)`. -/
def f32_as_u32 (q : Rat) : Nat :=
  if q < 0 then 0 else min (ratTrunc q).toNat (2 ^ 32 - 1)

/-- Rust `f32 as i64`: truncate toward zero, saturating into the i64 range. -/
def f32_as_i64 (q : Rat) : Int :=
  max (-(2 ^ 63)) (min (ratTrunc q) (2 ^ 63 - 1))

/-- Rust `i64 as u32`: keep the low 32 bits (two-complement wrap). -/
def i64_as_u32 (i : Int) : Nat := (i.emod (2 ^ 32)).toNat

/-- `Store::add_deck`: inserts a deck row; SQLite assigns the next id. -/
def add_deck (s : StoreState) (name : String) : StoreState :=
  { s with
    decks := s.decks ++ [{ id := s.next_deck_id, name := name }],
    next_deck_id := s.next_deck_id + 1 }

/-- `Store::list_decks`: `SELECT id, name FROM decks`. -/
def list_decks (s : StoreState) : List Deck := s.decks

/-- `Store::update_card`: `UPDATE cards SET next_show_date=$1 WHERE id=$2`. -/
def update_card (s : StoreState) (id : ID) (next_show_date : Time) : StoreState :=
  { s with
    cards := s.cards.map fun c =>
      if c.id = id then { c with next_show_date := next_show_date } else c }

/-- `Store::get_card`: card row joined with its deck; the source unwraps the
first row and panics when there is none, hence `Option`. -/
def get_card (s : StoreState) (id : ID) : Option Card :=
  match s.cards.find? (fun c => c.id == id) with
  | none => none
  | some c =>
    (s.decks.find? (fun d => d.id == c.deck_id)).map fun d =>
      { id := c.id, deck_id := d.id, deck := d.name, title := c.title,
        desc := c.desc, next_show_date := c.next_show_date,
        created_at := c.created_at }

/-- `Store::add_review`: INSERT into `revlog` with column order
`(card_id, last_interval, interval, review_time, stability, difficulty)`;
the id field of the argument is ignored and SQLite assigns the next id. -/
def add_review (s : StoreState) (r : ReviewRow) : StoreState :=
  { s with
    revlog := s.revlog ++ [{ r with id := s.next_rev_id }],
    next_rev_id := s.next_rev_id + 1 }

/-- `Review::from_row` over the SELECT column order
`id, card_id, last_interval, interval, review_time, stability, difficulty`:
the source assigns `interval := row.get(2)` (the `last_interval` column) and
`last_interval := row.get(3)` (the `interval` column), exchanging the two
fields; every other field is read from its own column. -/
def review_from_row (r : ReviewRow) : ReviewRow :=
  { r with interval := r.last_interval, last_interval := r.interval }

/-- `Store::get_last_review`: `ORDER BY id DESC LIMIT 1` over the rows of one
card. Ids are assigned in insertion order, so that row is the last appended
one; the result passes through `Review::from_row`. -/
def get_last_review (s : StoreState) (card_id : ID) : Option ReviewRow :=
  ((s.revlog.filter fun r => r.card_id == card_id).getLast?).map review_from_row

/-- `Store::get_reviews`: all rows of one card, each through
`Review::from_row`. -/
def get_reviews (s : StoreState) (card_id : ID) : List ReviewRow :=
  (s.revlog.filter fun r => r.card_id == card_id).map review_from_row

/-- `Store::suspend_card`: `UPDATE cards SET suspended = true WHERE id=$1`. -/
def suspend_card (s : StoreState) (card_id : ID) : StoreState :=
  { s with
    cards := s.cards.map fun c =>
      if c.id = card_id then { c with suspended := true } else c }

/-- `Store::unsuspend_card`: `UPDATE cards SET suspended = false WHERE id=$1`. -/
def unsuspend_card (s : StoreState) (card_id : ID) : StoreState :=
  { s with
    cards := s.cards.map fun c =>
      if c.id = card_id then { c with suspended := false } else c }

/-- `Store::update_card_details`: UPDATE of title, deck_id and desc;
returns `NotFoundError` when no row was changed. -/
def update_card_details (s : StoreState) (id : ID) (title : String)
    (deck_id : ID) (desc : String) : Except ReviseError StoreState :=
  if s.cards.any (fun c => c.id == id) then
    .ok { s with
      cards := s.cards.map fun c =>
        if c.id = id then
          { c with title := title, deck_id := deck_id, desc := desc }
        else c }
  else
    .error (.notFound id)

/-- `Store::remove_orphan_decks`: DELETE decks whose id is referenced by no
card row. -/
def remove_orphan_decks (s : StoreState) : StoreState :=
  { s with
    decks := s.decks.filter fun d => s.cards.any fun c => c.deck_id == d.id }

/-- The WHERE clause built by `Store::list_card_summaries`: suspended rows
when `is_suspended`; otherwise a due-date cut when not `all` and a deck cut
when `deck_id` is given. The source adds no suspension condition at all in
the `is_suspended = false` branch. -/
def summary_where (now : Time) (deck_id : Option ID) (all is_suspended : Bool)
    (c : CardRow) : Bool :=
  if is_suspended then
    c.suspended
  else
    (if !all then decide (c.next_show_date ≤ now) else true) &&
    (match deck_id with
     | some d => c.deck_id == d
     | none => true)

/-- The JOIN of a card row with its deck, projected to `CardSummary`;
rows whose deck id matches no deck are dropped, as an inner join does. -/
def summarize (s : StoreState) (c : CardRow) : Option CardSummary :=
  (s.decks.find? (fun d => d.id == c.deck_id)).map fun d =>
    { id := c.id, deck := d.name, title := c.title,
      next_show_date := c.next_show_date, created_at := c.created_at }

/-- `Store::list_card_summaries`. The SQL filters the joined rows; since the
WHERE clause only reads card columns (the deck cut `d.id = …` equals the
`deck_id` column under the join condition), filtering the card rows first is
the same relation. -/
def list_card_summaries (s : StoreState) (now : Time) (deck_id : Option ID)
    (all is_suspended : Bool) : List CardSummary :=
  (s.cards.filter (summary_where now deck_id all is_suspended)).filterMap
    (summarize s)

/-- `fsrs::MemoryState` (`f32` fields as `Rat`). -/
structure MemoryState where
  stability : Rat
  difficulty : Rat
deriving DecidableEq

/-- `fsrs::ItemState`: a candidate next memory plus its interval in days. -/
structure ItemState where
  memory : MemoryState
  interval : Rat
deriving DecidableEq

/-- `fsrs::NextStates`: the four candidate outcomes. -/
structure NextStates where
  again : ItemState
  hard : ItemState
  good : ItemState
  easy : ItemState
deriving DecidableEq

/-- The external `fsrs` crate call
`FSRS::new(Some(&[])).next_states(memory, 0.9, days_elapsed)` treated as a
pure oracle (both call sites pass the same desired retention 0.9). -/
abbrev FsrsOracle := Option MemoryState → Nat → NextStates

/-- The `MemoryState { difficulty: r.difficulty, stability: r.stability }`
built from a last review in `get_next_dates` and `revise_card`. -/
def memory_of_review (r : ReviewRow) : MemoryState :=
  { stability := r.stability, difficulty := r.difficulty }

/-- `last_review.map(|lr| lr.review_time).unwrap_or(card.created_at)`. -/
def last_date_of (created_at : Time) (lr : Option ReviewRow) : Time :=
  match lr with
  | some r => r.review_time
  | none => created_at

/-- `(now - last_date).num_days() as u32`, for the card with the given id and
creation time (day-granularity model, so `num_days` is the plain difference). -/
def days_elapsed_for (now : Time) (s : StoreState) (cid : ID)
    (created_at : Time) : Nat :=
  i64_as_u32 (now - last_date_of created_at (get_last_review s cid))

/-- The block shared verbatim by `get_next_dates` and `revise_card`:
fetch the last review, rebuild the optional memory state, and ask the fsrs
oracle for the four next states. -/
def next_states_for (fsrs : FsrsOracle) (now : Time) (s : StoreState)
    (cid : ID) (created_at : Time) : NextStates :=
  fsrs ((get_last_review s cid).map memory_of_review)
    (days_elapsed_for now s cid created_at)

/-- The `match n` arm selection in `revise_card`
(1 = again, 2 = hard, 3 = good, 4 = easy); callers guard `n ∈ 1..=4`. -/
def arm_of (ns : NextStates) (n : Nat) : ItemState :=
  if n = 1 then ns.again
  else if n = 2 then ns.hard
  else if n = 3 then ns.good
  else ns.easy

/-- The label the preview list pairs with rating `n`. -/
def arm_name (n : Nat) : String :=
  if n = 1 then "again"
  else if n = 2 then "hard"
  else if n = 3 then "good"
  else "easy"

/-- `Usecase::get_next_dates`: the four `(label, interval.round())` pairs
shown by the revise prompt. -/
def get_next_dates (fsrs : FsrsOracle) (now : Time) (s : StoreState)
    (card : CardSummary) : List (String × Rat) :=
  let ns := next_states_for fsrs now s card.id card.created_at
  [("again", (rustRound ns.again.interval : Rat)),
   ("hard", (rustRound ns.hard.interval : Rat)),
   ("good", (rustRound ns.good.interval : Rat)),
   ("easy", (rustRound ns.easy.interval : Rat))]

/-- Lookup of one labelled arm in a preview list. -/
def preview_lookup (l : List (String × Rat)) (name : String) : Option Rat :=
  (l.find? fun p => p.1 == name).map fun p => p.2

/-- `Usecase::revise_card`. `.error s` models a panic while the store still
holds state `s`: the source panics on a missing card (`get_card` unwrap), on
`n > 4`, and on the `match` fall-through arm `n = 0`, all before the store is
touched; on a valid rating it appends the review built from the chosen arm
(`interval` via `as u32`, so truncation) and sets the next show date to
`now + Duration::days(interval as i64)`. -/
def revise_card (fsrs : FsrsOracle) (now : Time) (s : StoreState)
    (card_id : ID) (n : Nat) : Except StoreState StoreState :=
  match get_card s card_id with
  | none => .error s
  | some card =>
    let days_elapsed := days_elapsed_for now s card.id card.created_at
    let ns := next_states_for fsrs now s card.id card.created_at
    if 4 < n then .error s
    else if n = 0 then .error s
    else
      let next_state := arm_of ns n
      let revision : ReviewRow :=
        { id := 0,
          card_id := card.id,
          last_interval := days_elapsed,
          interval := f32_as_u32 next_state.interval,
          review_time := now,
          stability := next_state.memory.stability,
          difficulty := next_state.memory.difficulty }
      let s1 := add_review s revision
      .ok (update_card s1 card.id (now + f32_as_i64 next_state.interval))

/-- `Usecase::edit_card`, with the external editor round-trip replaced by its
parsed front-matter result `(title, deck_name, desc)`. Mirrors the source
order exactly: resolve or create the target deck when the deck name changed,
then `remove_orphan_decks`, then `update_card_details`. `none` models the
panics (missing card, or an unwrapped store error). -/
def edit_card (s : StoreState) (id : ID) (title deck_name desc : String) :
    Option StoreState :=
  match get_card s id with
  | none => none
  | some card =>
    let resolved : Option (StoreState × ID) :=
      if card.deck ≠ deck_name then
        match s.decks.find? (fun d => d.name == deck_name) with
        | some d => some (s, d.id)
        | none =>
          let s1 := add_deck s deck_name
          (s1.decks.find? (fun d => d.name == deck_name)).map fun d => (s1, d.id)
      else
        some (s, card.deck_id)
    match resolved with
    | none => none
    | some (s1, deck_id) =>
      let s2 := remove_orphan_decks s1
      match update_card_details s2 id title deck_id desc with
      | .error _ => none
      | .ok s3 => some s3

/-- Modelled from the spec: `Usecase::delete_deck` is called by the sidebar
delete handler in `src/app.rs` but its definition is absent from
`src/usecase.rs`; the spec says the sidebar delete action "removes the
backing deck (and, per policy, its cards)". -/
def delete_deck (s : StoreState) (deck_id : ID) : StoreState :=
  { s with
    decks := s.decks.filter fun d => !(d.id == deck_id),
    cards := s.cards.filter fun c => !(c.deck_id == deck_id) }

/-- The `CardSummary` row of a joined card, as the card table holds it when
the app passes it to `get_next_dates`. -/
def summary_of_card (card : Card) : CardSummary :=
  { id := card.id, deck := card.deck, title := card.title,
    next_show_date := card.next_show_date, created_at := card.created_at }

/-- `app::Focused`. -/
inductive Focused where
  | sidebar
  | cards
deriving DecidableEq

/-- The crossterm key codes the modelled handlers branch on; every other
code takes the `_` arm of the source matches. -/
inductive Key where
  | char (c : Char)
  | tab
  | enter
  | esc
  | backspace
  | left
  | right
  | other
deriving DecidableEq

/-- The external `tui_input::Input` value: buffer plus cursor. -/
structure InputModel where
  value : List Char
  cursor : Nat
deriving DecidableEq

/-- Insertion of a character at a position of a buffer. -/
def insertAt (l : List Char) (n : Nat) (c : Char) : List Char :=
  l.take n ++ c :: l.drop n

/-- Model of the external `tui_input` crate `Input::handle_event` for the
key events this app forwards: a plain printable character is inserted at the
cursor, backspace deletes before the cursor, left and right move the cursor,
anything else leaves the input unchanged. -/
def input_handle_event (i : InputModel) (k : Key) : InputModel :=
  match k with
  | .char c => { value := insertAt i.value i.cursor c, cursor := i.cursor + 1 }
  | .backspace =>
    if i.cursor = 0 then i
    else { value := i.value.take (i.cursor - 1) ++ i.value.drop i.cursor,
           cursor := i.cursor - 1 }
  | .left => { i with cursor := i.cursor - 1 }
  | .right => { i with cursor := min (i.cursor + 1) i.value.length }
  | _ => i

/-- The slice of `app::AppState` the modelled key-handler branches read and
write; `app.rs` declares no confirmation field of any kind. -/
structure SessionState where
  focused : Focused
  decks : List Deck
  decksSel : Nat
  cards : List CardSummary
  cardsTableSearching : Bool
  cardsTableInput : InputModel
  store : StoreState
deriving DecidableEq

/-- `App::get_cards_in_deck`: virtual slots 0 (due), 1 (suspended),
2 (all collection), then one slot per deck; `decks.get(ind - 3).expect(…)`
panics out of range, hence `Option`. -/
def get_cards_in_deck (s : StoreState) (now : Time) (ind : Nat)
    (decks : List Deck) : Option (List CardSummary) :=
  if ind = 0 then some (list_card_summaries s now none false false)
  else if ind = 1 then some (list_card_summaries s now none true true)
  else if ind = 2 then some (list_card_summaries s now none true false)
  else (decks[ind - 3]?).map fun deck =>
    list_card_summaries s now (some deck.id) false false

/-- The `cards_table_searching` branch of `handle_key_event`: Enter or
Escape leave search mode (the input is untouched); every other key is fed to
the live filter input. -/
def cards_searching_key (st : SessionState) (k : Key) : SessionState :=
  match k with
  | .enter => { st with cardsTableSearching := false }
  | .esc => { st with cardsTableSearching := false }
  | _ => { st with cardsTableInput := input_handle_event st.cardsTableInput k }

/-- The `KeyCode::Char(n @ '1'..='9')` quick-filter arm of the Normal cards
branch, with `n` already converted by `to_digit`: a digit above the deck
count returns early; otherwise slot `n + 2` is selected and its list
fetched. -/
def normal_digit_key (now : Time) (st : SessionState) (n : Nat) :
    Option SessionState :=
  if st.decks.length < n then some st
  else (get_cards_in_deck st.store now (n + 2) st.decks).map fun cs =>
    { st with decksSel := n + 2, cards := cs }

/-- The `Focused::Sidebar` branch of `handle_key_event`: Tab refocuses the
cards table; `k` moves the selection up (saturating at 0); `j` moves it down
and fetches the list for the selection clamped to `decks.len() + 2`; `d` on a
deck slot deletes that deck at once, refreshes the deck list and resets the
selection to slot 0. `none` models a panic inside `get_cards_in_deck`. -/
def sidebar_key (now : Time) (st : SessionState) (k : Key) :
    Option SessionState :=
  match k with
  | .tab => some { st with focused := .cards }
  | .char c =>
    if c = 'k' then
      let sel := st.decksSel - 1
      (get_cards_in_deck st.store now sel st.decks).map fun cs =>
        { st with decksSel := sel, cards := cs }
    else if c = 'j' then
      let selRaw := st.decksSel + 1
      let sel := min selRaw (st.decks.length + 2)
      (get_cards_in_deck st.store now sel st.decks).map fun cs =>
        { st with decksSel := selRaw, cards := cs }
    else if c = 'd' then
      if 3 ≤ st.decksSel then
        match st.decks[st.decksSel - 3]? with
        | some deck =>
          let s1 := delete_deck st.store deck.id
          (get_cards_in_deck s1 now 0 (list_decks s1)).map fun cs =>
            { st with
              store := s1
              decks := list_decks s1
              decksSel := 0
              cards := cs }
        | none => some st
      else some st
    else some st
  | _ => some st

/-- Character-list test that `pat` starts `hay`. -/
def isPrefixList (pat hay : List Char) : Bool :=
  match pat, hay with
  | [], _ => true
  | _ :: _, [] => false
  | p :: ps, h :: hs => p == h && isPrefixList ps hs

/-- Substring containment on character lists. -/
def containsSub (hay pat : List Char) : Bool :=
  match hay with
  | [] => isPrefixList pat []
  | _ :: t => isPrefixList pat hay || containsSub t pat

/-- Rust `str::contains(&str)`: case-sensitive substring test. -/
def str_contains (hay pat : String) : Bool :=
  containsSub hay.toList pat.toList

/-- The card-table filter of `home::render_card_table`: an empty buffer shows
the slot list unchanged, otherwise only the rows whose title contains the
buffer as a (case-sensitive) substring. -/
def visible_cards (cards : List CardSummary) (input : InputModel) :
    List CardSummary :=
  if input.value.isEmpty then cards
  else cards.filter fun c => str_contains c.title (String.mk input.value)

/-! Concrete fixtures for the witness and counterexample instantiations. -/

/-- A constant fsrs oracle for concrete instantiations; the good-arm
interval 27/10 days is a representative fractional fsrs output. -/
def fsrsConst : FsrsOracle := fun _ _ =>
  { again := { memory := { stability := 4, difficulty := 5 },
               interval := (⟨6, 5, by decide, by decide⟩ : Rat) },
    hard := { memory := { stability := 4, difficulty := 5 },
              interval := (⟨5, 2, by decide, by decide⟩ : Rat) },
    good := { memory := { stability := 4, difficulty := 5 },
              interval := (⟨27, 10, by decide, by decide⟩ : Rat) },
    easy := { memory := { stability := 4, difficulty := 5 }, interval := 6 } }

/-- A due, unsuspended card row in deck 1. -/
def cardRowC1 : CardRow :=
  { id := 1, deck_id := 1, title := "t", desc := "d", next_show_date := 0,
    created_at := 0, suspended := false }

/-- One deck, one due unsuspended card, empty review log. -/
def storeC1 : StoreState :=
  { decks := [{ id := 1, name := "A" }], cards := [cardRowC1], revlog := [],
    next_deck_id := 2, next_rev_id := 1 }

/-- The deck-joined view of `cardRowC1`. -/
def cardC1 : Card :=
  { id := 1, deck_id := 1, deck := "A", title := "t", desc := "d",
    next_show_date := 0, created_at := 0 }

/-- A suspended card row that is also due. -/
def cardRowC2 : CardRow :=
  { id := 1, deck_id := 1, title := "t", desc := "", next_show_date := 0,
    created_at := 0, suspended := true }

/-- One deck, one suspended due card. -/
def storeC2 : StoreState :=
  { decks := [{ id := 1, name := "A" }], cards := [cardRowC2], revlog := [],
    next_deck_id := 2, next_rev_id := 1 }

/-- A review with distinct `interval` and `last_interval` values. -/
def reviewC3 : ReviewRow :=
  { id := 0, card_id := 1, last_interval := 2, interval := 5, review_time := 10,
    stability := 1, difficulty := 1 }

/-- A session focused on the sidebar with deck slot 3 (the only deck)
selected. -/
def stC4 : SessionState :=
  { focused := .sidebar, decks := [{ id := 1, name := "A" }], decksSel := 3,
    cards := [], cardsTableSearching := false,
    cardsTableInput := { value := [], cursor := 0 }, store := storeC1 }

/-- Two decks each holding one card. -/
def storeC7 : StoreState :=
  { decks := [{ id := 1, name := "A" }, { id := 2, name := "B" }],
    cards :=
      [{ id := 1, deck_id := 1, title := "a", desc := "", next_show_date := 0,
         created_at := 0, suspended := false },
       { id := 2, deck_id := 2, title := "b", desc := "", next_show_date := 0,
         created_at := 0, suspended := false }],
    revlog := [], next_deck_id := 3, next_rev_id := 1 }

/-- A session in search mode with buffer "fo" and the cursor at its end. -/
def stC8 : SessionState :=
  { focused := .cards, decks := [], decksSel := 0,
    cards :=
      [{ id := 1, deck := "A", title := "foo", next_show_date := 0, created_at := 0 },
       { id := 2, deck := "A", title := "bar", next_show_date := 0, created_at := 0 }],
    cardsTableSearching := true,
    cardsTableInput := { value := ['f', 'o'], cursor := 2 }, store := storeC1 }

end Revise

namespace Revise

/-! Helper lemmas shared by the claim theorems. -/

lemma getElem?_map_list {α β : Type} (l : List α) (f : α → β) (i : Nat) :
    (l.map f)[i]? = l[i]?.map f := by
  induction l generalizing i with
  | nil => simp
  | cons a t ih => cases i <;> simp [ih]

lemma map_congr_mem {α β : Type} (l : List α) (f g : α → β)
    (h : ∀ a ∈ l, f a = g a) : l.map f = l.map g := by
  induction l with
  | nil => rfl
  | cons a t ih =>
    simp only [List.map_cons]
    rw [h a (List.mem_cons_self a t), ih fun b hb => h b (List.mem_cons_of_mem a hb)]

lemma map_id_of_mem {α : Type} (l : List α) (f : α → α)
    (h : ∀ a ∈ l, f a = a) : l.map f = l := by
  induction l with
  | nil => rfl
  | cons a t ih =>
    simp only [List.map_cons]
    rw [h a (List.mem_cons_self a t), ih fun b hb => h b (List.mem_cons_of_mem a hb)]

lemma store_eq_of_fields (a b : StoreState) (h1 : a.decks = b.decks)
    (h2 : a.cards = b.cards) (h3 : a.revlog = b.revlog)
    (h4 : a.next_deck_id = b.next_deck_id)
    (h5 : a.next_rev_id = b.next_rev_id) : a = b := by
  cases a; cases b; simp_all

lemma card_set_suspended_eq (c : CardRow) (b : Bool) (h : c.suspended = b) :
    { c with suspended := b } = c := by
  cases c; simp_all

/-- C9: `remove_orphan_decks` keeps a deck exactly when some card references
it — so it removes a deck iff the deck has zero referencing cards, never
removes a deck that still has a card — and running it twice equals running
it once. -/
theorem C9_remove_orphan_decks_iff_and_idempotent (s : StoreState) :
    (∀ d : Deck, d ∈ (remove_orphan_decks s).decks ↔
      (d ∈ s.decks ∧ ∃ c ∈ s.cards, c.deck_id = d.id)) ∧
    remove_orphan_decks (remove_orphan_decks s) = remove_orphan_decks s := by
  constructor
  · intro d
    simp [remove_orphan_decks, List.mem_filter, List.any_eq_true, beq_iff_eq]
  · apply store_eq_of_fields <;>
      simp [remove_orphan_decks, List.filter_filter, Bool.and_self]

/-- C10: `suspend_card` and `unsuspend_card` keep the decks, the review log,
the card count, and every field of every card except the suspended flag of
the card with the given id (other cards are untouched entirely); both are
idempotent, and applying them to a card already in the target state leaves
the store identical. -/
theorem C10_suspend_unsuspend_frame_and_idempotent (s : StoreState) (cid : ID) :
    ((suspend_card s cid).decks = s.decks) ∧
    ((suspend_card s cid).revlog = s.revlog) ∧
    ((unsuspend_card s cid).decks = s.decks) ∧
    ((unsuspend_card s cid).revlog = s.revlog) ∧
    ((suspend_card s cid).cards.length = s.cards.length) ∧
    ((unsuspend_card s cid).cards.length = s.cards.length) ∧
    (∀ i : Nat, ∀ c c2 : CardRow, s.cards[i]? = some c →
      (suspend_card s cid).cards[i]? = some c2 →
      c2.id = c.id ∧ c2.deck_id = c.deck_id ∧ c2.title = c.title ∧
      c2.desc = c.desc ∧ c2.next_show_date = c.next_show_date ∧
      c2.created_at = c.created_at ∧ (¬ c.id = cid → c2 = c) ∧
      (c.id = cid → c2.suspended = true)) ∧
    (∀ i : Nat, ∀ c c2 : CardRow, s.cards[i]? = some c →
      (unsuspend_card s cid).cards[i]? = some c2 →
      c2.id = c.id ∧ c2.deck_id = c.deck_id ∧ c2.title = c.title ∧
      c2.desc = c.desc ∧ c2.next_show_date = c.next_show_date ∧
      c2.created_at = c.created_at ∧ (¬ c.id = cid → c2 = c) ∧
      (c.id = cid → c2.suspended = false)) ∧
    (suspend_card (suspend_card s cid) cid = suspend_card s cid) ∧
    (unsuspend_card (unsuspend_card s cid) cid = unsuspend_card s cid) ∧
    ((∀ c ∈ s.cards, c.id = cid → c.suspended = true) → suspend_card s cid = s) ∧
    ((∀ c ∈ s.cards, c.id = cid → c.suspended = false) → unsuspend_card s cid = s) := by
  refine ⟨rfl, rfl, rfl, rfl, by simp [suspend_card], by simp [unsuspend_card],
    ?_, ?_, ?_, ?_, ?_, ?_⟩
  · intro i c c2 h1 h2
    rw [show (suspend_card s cid).cards =
        s.cards.map (fun c => if c.id = cid then { c with suspended := true } else c)
      from rfl, getElem?_map_list, h1] at h2
    have hc2 : (if c.id = cid then { c with suspended := true } else c) = c2 :=
      Option.some.inj h2
    by_cases hc : c.id = cid
    · rw [if_pos hc] at hc2
      subst hc2
      exact ⟨rfl, rfl, rfl, rfl, rfl, rfl, fun hn => absurd hc hn, fun _ => rfl⟩
    · rw [if_neg hc] at hc2
      subst hc2
      exact ⟨rfl, rfl, rfl, rfl, rfl, rfl, fun _ => rfl, fun he => absurd he hc⟩
  · intro i c c2 h1 h2
    rw [show (unsuspend_card s cid).cards =
        s.cards.map (fun c => if c.id = cid then { c with suspended := false } else c)
      from rfl, getElem?_map_list, h1] at h2
    have hc2 : (if c.id = cid then { c with suspended := false } else c) = c2 :=
      Option.some.inj h2
    by_cases hc : c.id = cid
    · rw [if_pos hc] at hc2
      subst hc2
      exact ⟨rfl, rfl, rfl, rfl, rfl, rfl, fun hn => absurd hc hn, fun _ => rfl⟩
    · rw [if_neg hc] at hc2
      subst hc2
      exact ⟨rfl, rfl, rfl, rfl, rfl, rfl, fun _ => rfl, fun he => absurd he hc⟩
  · apply store_eq_of_fields <;> try rfl
    show ((s.cards.map _).map _) = s.cards.map _
    rw [List.map_map]
    exact map_congr_mem _ _ _ fun a _ => by
      by_cases ha : a.id = cid <;> simp [Function.comp, ha]
  · apply store_eq_of_fields <;> try rfl
    show ((s.cards.map _).map _) = s.cards.map _
    rw [List.map_map]
    exact map_congr_mem _ _ _ fun a _ => by
      by_cases ha : a.id = cid <;> simp [Function.comp, ha]
  · intro h
    apply store_eq_of_fields <;> try rfl
    exact map_id_of_mem _ _ fun a ha => by
      by_cases hc : a.id = cid
      · simp only [if_pos hc]
        exact card_set_suspended_eq a true (h a ha hc)
      · simp only [if_neg hc]
  · intro h
    apply store_eq_of_fields <;> try rfl
    exact map_id_of_mem _ _ fun a ha => by
      by_cases hc : a.id = cid
      · simp only [if_pos hc]
        exact card_set_suspended_eq a false (h a ha hc)
      · simp only [if_neg hc]

/-- C10 witness: suspending the already-suspended card of `storeC2` leaves
the store identical. -/
theorem C10_witness : suspend_card storeC2 1 = storeC2 := by
  obtain ⟨-, -, -, -, -, -, -, -, -, -, h, -⟩ :=
    C10_suspend_unsuspend_frame_and_idempotent storeC2 1
  exact h (by decide)

/-- C2: evaluation at the failing input. `storeC2` holds a single suspended
card that is due; `list_card_summaries` with `is_suspended = false` returns
it — both in the due view and in the all view — because the source adds no
suspension filter in that branch, while the claim says those calls return
only non-suspended cards. -/
theorem C2_due_listing_includes_suspended :
    list_card_summaries storeC2 5 none false false =
      [{ id := 1, deck := "A", title := "t", next_show_date := 0, created_at := 0 }] ∧
    list_card_summaries storeC2 5 none true false =
      [{ id := 1, deck := "A", title := "t", next_show_date := 0, created_at := 0 }] ∧
    storeC2.cards.all (fun c => c.suspended) = true := ⟨rfl, rfl, rfl⟩

/-- C3: evaluation at the failing input. Appending `reviewC3` (with
`interval = 5`, `last_interval = 2`) and reading it back through
`get_last_review` yields `interval = 2`, `last_interval = 5`: the round trip
exchanges the two fields because `Review::from_row` reads `interval` from the
`last_interval` column and vice versa. -/
theorem C3_round_trip_swaps_interval_fields :
    (get_last_review (add_review storeC1 reviewC3) 1).map
      (fun r => (r.interval, r.last_interval)) = some (2, 5) ∧
    (reviewC3.interval, reviewC3.last_interval) = (5, 2) := ⟨rfl, rfl⟩

/-- C4: evaluation at the failing input. With the sidebar focused and deck
slot 3 selected, the single key `d` transitions directly to a state in which
the deck and its card are already deleted; no confirmation step exists in the
state machine (the modelled state, like `app::AppState`, has no
confirmation field at all). -/
theorem C4_sidebar_delete_without_confirmation :
    (sidebar_key 0 stC4 (Key.char 'd')).map
      (fun st => (st.store.decks, st.store.cards, st.decksSel, st.focused)) =
      some ([], [], 0, Focused.sidebar) ∧
    stC4.store.decks = [{ id := 1, name := "A" }] := ⟨rfl, rfl⟩

/-- C7: evaluation at the failing input. Editing card 1 (the only card of
deck A) to move it into the existing deck B leaves deck A in `list_decks`
even though no card references it any more — the orphan sweep inside
`edit_card` runs before `update_card_details` — as the second conjunct shows:
a sweep run after `edit_card` does remove deck A. -/
theorem C7_edit_card_old_deck_persists :
    (edit_card storeC7 1 "a" "B" "body").map
      (fun s => (s.decks, s.cards.map fun c => (c.id, c.deck_id))) =
      some ([{ id := 1, name := "A" }, { id := 2, name := "B" }],
        [(1, 2), (2, 2)]) ∧
    (edit_card storeC7 1 "a" "B" "body").map
      (fun s => (remove_orphan_decks s).decks) =
      some [{ id := 2, name := "B" }] := ⟨rfl, rfl⟩

lemma get_cards_in_deck_total (s : StoreState) (now : Time) (ind : Nat)
    (decks : List Deck) (h : ind ≤ decks.length + 2) :
    ∃ cs, get_cards_in_deck s now ind decks = some cs := by
  by_cases h0 : ind = 0
  · exact ⟨list_card_summaries s now none false false,
      by simp [get_cards_in_deck, h0]⟩
  by_cases h1 : ind = 1
  · exact ⟨list_card_summaries s now none true true,
      by simp [get_cards_in_deck, h0, h1]⟩
  by_cases h2 : ind = 2
  · exact ⟨list_card_summaries s now none true false,
      by simp [get_cards_in_deck, h0, h1, h2]⟩
  have hidx : ind - 3 < decks.length := by omega
  exact ⟨list_card_summaries s now (some decks[ind - 3].id) false false,
    by simp [get_cards_in_deck, h0, h1, h2, List.getElem?_eq_getElem hidx]⟩

/-- C6: a rating outside 1..=4 makes `revise_card` abort with the store in
exactly the state it had before the call: no review is appended and no
next-show-date changes (`.error s` carries the store state at the fault). -/
theorem C6_invalid_rating_faults_before_mutation (fsrs : FsrsOracle)
    (now : Time) (s : StoreState) (card_id : ID) (n : Nat)
    (h : n = 0 ∨ 4 < n) :
    revise_card fsrs now s card_id n = .error s := by
  cases hg : get_card s card_id with
  | none =>
    unfold revise_card
    rw [hg]
  | some card =>
    rcases h with rfl | h
    · unfold revise_card
      rw [hg]
      rfl
    · unfold revise_card
      rw [hg]
      simp [h]

/-- C6 witness: rating 5 on the card of `storeC1` faults with the store
unchanged. -/
theorem C6_witness : revise_card fsrsConst 0 storeC1 1 5 = .error storeC1 :=
  C6_invalid_rating_faults_before_mutation fsrsConst 0 storeC1 1 5
    (Or.inr (by decide))

/-- C5 (amended): slot 0 issues the due query, slot 1 the suspended query,
slot 2 the all query (none of which excludes suspended cards in the
`is_suspended = false` branches — the store defect recorded at C2); slot
`k + 3` maps to deck `k` and every in-range slot `i ∈ [3, 3 + N)` is backed
by deck `i - 3`, bijectively; the sidebar down-key fetch clamps an
out-of-range selection to slot `N + 2` and never faults; a digit `n` above
the deck count is a no-op and a digit `n ≤ N` selects slot `n + 2` backed by
deck `n - 1`. -/
theorem C5_slot_addressing_clamp_and_digits (s : StoreState) (now : Time)
    (decks : List Deck) :
    (get_cards_in_deck s now 0 decks =
      some (list_card_summaries s now none false false)) ∧
    (get_cards_in_deck s now 1 decks =
      some (list_card_summaries s now none true true)) ∧
    (get_cards_in_deck s now 2 decks =
      some (list_card_summaries s now none true false)) ∧
    (∀ k : Nat, ∀ d : Deck, decks[k]? = some d →
      get_cards_in_deck s now (k + 3) decks =
        some (list_card_summaries s now (some d.id) false false)) ∧
    (∀ i : Nat, 3 ≤ i → i < 3 + decks.length →
      ∃ d : Deck, decks[i - 3]? = some d ∧
        get_cards_in_deck s now i decks =
          some (list_card_summaries s now (some d.id) false false)) ∧
    (∀ st : SessionState, st.decks.length + 2 ≤ st.decksSel →
      ∃ cs : List CardSummary,
        get_cards_in_deck st.store now (st.decks.length + 2) st.decks =
          some cs ∧
        sidebar_key now st (Key.char 'j') =
          some { st with decksSel := st.decksSel + 1, cards := cs }) ∧
    (∀ st : SessionState, ∀ n : Nat, st.decks.length < n →
      normal_digit_key now st n = some st) ∧
    (∀ st : SessionState, ∀ n : Nat, ∀ d : Deck, 1 ≤ n →
      st.decks[n - 1]? = some d →
      normal_digit_key now st n =
        some { st with
          decksSel := n + 2
          cards := list_card_summaries st.store now (some d.id) false false }) := by
  refine ⟨rfl, rfl, rfl, ?_, ?_, ?_, ?_, ?_⟩
  · intro k d hk
    have h0 : ¬ (k + 3 = 0) := by omega
    have h1 : ¬ (k + 3 = 1) := by omega
    have h2 : ¬ (k + 3 = 2) := by omega
    simp [get_cards_in_deck, h0, h1, h2, Nat.add_sub_cancel, hk]
  · intro i h3 hlt
    have hidx : i - 3 < decks.length := by omega
    have h0 : ¬ (i = 0) := by omega
    have h1 : ¬ (i = 1) := by omega
    have h2 : ¬ (i = 2) := by omega
    refine ⟨decks[i - 3], List.getElem?_eq_getElem hidx, ?_⟩
    simp [get_cards_in_deck, h0, h1, h2, List.getElem?_eq_getElem hidx]
  · intro st hsel
    have hmin : min (st.decksSel + 1) (st.decks.length + 2) =
        st.decks.length + 2 := by omega
    obtain ⟨cs, hcs⟩ :=
      get_cards_in_deck_total st.store now (st.decks.length + 2) st.decks
        (by omega)
    refine ⟨cs, hcs, ?_⟩
    simp [sidebar_key, hmin, hcs]
  · intro st n h
    simp [normal_digit_key, h]
  · intro st n d h1 hd
    have hlen : n - 1 < st.decks.length := by
      by_contra hc
      rw [List.getElem?_eq_none (by omega)] at hd
      exact Option.noConfusion hd
    have hnot : ¬ (st.decks.length < n) := by omega
    have e0 : ¬ (n + 2 = 0) := by omega
    have e1 : ¬ (n + 2 = 1) := by omega
    have e2 : ¬ (n + 2 = 2) := by omega
    have hidx : n + 2 - 3 = n - 1 := by omega
    simp [normal_digit_key, hnot, get_cards_in_deck, e0, e1, e2, hidx, hd]

/-- C5 witness: in `storeC1` with its single deck, slot 3 fetches exactly
the due list of deck 1. -/
theorem C5_witness :
    get_cards_in_deck storeC1 0 3 [{ id := 1, name := "A" }] =
      some [{ id := 1, deck := "A", title := "t", next_show_date := 0, created_at := 0 }] := by
  have h :=
    (C5_slot_addressing_clamp_and_digits storeC1 0
      [{ id := 1, name := "A" }]).2.2.2.1 0 { id := 1, name := "A" } rfl
  exact h.trans rfl

/-- C5 counterexample: as stated the claim is false — slot 0 (the Review
slot, claimed to list only non-suspended due cards) lists the suspended due
card of `storeC2`. -/
theorem C5_counterexample :
    get_cards_in_deck storeC2 5 0 [] =
      some [{ id := 1, deck := "A", title := "t", next_show_date := 0, created_at := 0 }] ∧
    storeC2.cards.all (fun c => c.suspended) = true := ⟨rfl, rfl⟩

/-- C8 (amended): in search mode every character key keeps search mode
active and inserts the character into the filter buffer at the cursor,
advancing the cursor — hence it appends the character when the cursor sits
at the end of the buffer, which plain typing maintains; Enter and Escape
leave search mode without touching the buffer; no key of the search branch
changes the slot list; and the visible card list is exactly the slot list
filtered by case-sensitive substring match of the buffer against the titles
(everything when the buffer is empty). -/
theorem C8_searching_inserts_at_cursor_and_filters (st : SessionState)
    (hs : st.cardsTableSearching = true) :
    (∀ c : Char,
      (cards_searching_key st (Key.char c)).cardsTableSearching = true ∧
      (cards_searching_key st (Key.char c)).cardsTableInput.value =
        st.cardsTableInput.value.take st.cardsTableInput.cursor ++
          c :: st.cardsTableInput.value.drop st.cardsTableInput.cursor ∧
      (cards_searching_key st (Key.char c)).cardsTableInput.cursor =
        st.cardsTableInput.cursor + 1) ∧
    (∀ c : Char, st.cardsTableInput.cursor = st.cardsTableInput.value.length →
      (cards_searching_key st (Key.char c)).cardsTableInput.value =
        st.cardsTableInput.value ++ [c]) ∧
    ((cards_searching_key st Key.enter).cardsTableSearching = false) ∧
    ((cards_searching_key st Key.enter).cardsTableInput = st.cardsTableInput) ∧
    ((cards_searching_key st Key.esc).cardsTableSearching = false) ∧
    ((cards_searching_key st Key.esc).cardsTableInput = st.cardsTableInput) ∧
    (∀ k : Key, (cards_searching_key st k).cards = st.cards) ∧
    (∀ cs : CardSummary, cs ∈ visible_cards st.cards st.cardsTableInput ↔
      (cs ∈ st.cards ∧ (st.cardsTableInput.value = [] ∨
        str_contains cs.title (String.mk st.cardsTableInput.value) = true))) := by
  refine ⟨?_, ?_, rfl, rfl, rfl, rfl, ?_, ?_⟩
  · intro c
    exact ⟨hs, rfl, rfl⟩
  · intro c hcur
    show insertAt st.cardsTableInput.value st.cardsTableInput.cursor c =
      st.cardsTableInput.value ++ [c]
    rw [insertAt, hcur, List.take_length, List.drop_length]
  · intro k
    cases k <;> rfl
  · intro cs
    by_cases hv : st.cardsTableInput.value = []
    · simp [visible_cards, hv]
    · simp [visible_cards, List.isEmpty_iff, hv, List.mem_filter]

/-- C8 witness: typing `o` with buffer "fo" and the cursor at its end
appends, giving buffer "foo". -/
theorem C8_witness :
    (cards_searching_key stC8 (Key.char 'o')).cardsTableInput.value =
      ['f', 'o', 'o'] := by
  have h := (C8_searching_inserts_at_cursor_and_filters stC8 rfl).2.1 'o' rfl
  exact h.trans rfl

/-- C8 counterexample: as stated the claim is false — from `stC8` (buffer
"fo", cursor at the end) the Left key keeps search mode active and moves the
cursor to 1, and the printable key `x` is then inserted mid-buffer, giving
"fxo", not the appended "fox". -/
theorem C8_counterexample :
    (cards_searching_key stC8 Key.left).cardsTableSearching = true ∧
    (cards_searching_key stC8 Key.left).cardsTableInput.value = ['f', 'o'] ∧
    (cards_searching_key (cards_searching_key stC8 Key.left)
      (Key.char 'x')).cardsTableInput.value = ['f', 'x', 'o'] ∧
    ['f', 'x', 'o'] ≠ ['f', 'o'] ++ ['x'] := ⟨rfl, rfl, rfl, by decide⟩

/-- C1 (amended): for a rating `n ∈ 1..=4`, `revise_card` appends exactly
one review whose stability and difficulty equal the memory state of the
corresponding arm of the preview computed from the same store and time,
whose `last_interval` is the elapsed days and `review_time` is `now`, and
whose `interval` is the `as u32` cast — truncation toward zero, not the
rounding the preview displays — of the arm's fractional interval; the card's
`next_show_date` becomes `now` plus the `as i64` truncation of that same
interval, and all other cards and the decks are unchanged. -/
theorem C1_revise_commits_truncated_preview_arm (fsrs : FsrsOracle)
    (now : Time) (s : StoreState) (cid : ID) (card : Card) (n : Nat)
    (hcard : get_card s cid = some card) (h1 : 1 ≤ n) (h4 : n ≤ 4) :
    ∃ s1 : StoreState, ∃ rev : ReviewRow,
      revise_card fsrs now s cid n = .ok s1 ∧
      s1.revlog = s.revlog ++ [rev] ∧
      s1.decks = s.decks ∧
      rev.card_id = card.id ∧
      rev.stability =
        (arm_of (next_states_for fsrs now s card.id card.created_at) n).memory.stability ∧
      rev.difficulty =
        (arm_of (next_states_for fsrs now s card.id card.created_at) n).memory.difficulty ∧
      rev.interval =
        f32_as_u32 (arm_of (next_states_for fsrs now s card.id card.created_at) n).interval ∧
      rev.last_interval = days_elapsed_for now s card.id card.created_at ∧
      rev.review_time = now ∧
      preview_lookup (get_next_dates fsrs now s (summary_of_card card)) (arm_name n) =
        some ((rustRound (arm_of (next_states_for fsrs now s card.id card.created_at) n).interval : Int) : Rat) ∧
      s1.cards = (s.cards.map fun c =>
        if c.id = card.id then
          { c with next_show_date :=
              now + f32_as_i64 (arm_of (next_states_for fsrs now s card.id card.created_at) n).interval }
        else c) := by
  have hn : n = 1 ∨ n = 2 ∨ n = 3 ∨ n = 4 := by omega
  rcases hn with rfl | rfl | rfl | rfl
  all_goals
    unfold revise_card
    rw [hcard]
    exact ⟨_, _, rfl, rfl, rfl, rfl, rfl, rfl, rfl, rfl, rfl, rfl, rfl⟩

/-- C1 witness: the amended statement at the concrete oracle `fsrsConst`,
store `storeC1`, card 1 and rating 3. -/
theorem C1_witness :
    ∃ s1 : StoreState, ∃ rev : ReviewRow,
      revise_card fsrsConst 0 storeC1 1 3 = .ok s1 ∧
      s1.revlog = storeC1.revlog ++ [rev] ∧
      s1.decks = storeC1.decks ∧
      rev.card_id = cardC1.id ∧
      rev.stability =
        (arm_of (next_states_for fsrsConst 0 storeC1 cardC1.id cardC1.created_at) 3).memory.stability ∧
      rev.difficulty =
        (arm_of (next_states_for fsrsConst 0 storeC1 cardC1.id cardC1.created_at) 3).memory.difficulty ∧
      rev.interval =
        f32_as_u32 (arm_of (next_states_for fsrsConst 0 storeC1 cardC1.id cardC1.created_at) 3).interval ∧
      rev.last_interval = days_elapsed_for 0 storeC1 cardC1.id cardC1.created_at ∧
      rev.review_time = 0 ∧
      preview_lookup (get_next_dates fsrsConst 0 storeC1 (summary_of_card cardC1)) (arm_name 3) =
        some ((rustRound (arm_of (next_states_for fsrsConst 0 storeC1 cardC1.id cardC1.created_at) 3).interval : Int) : Rat) ∧
      s1.cards = (storeC1.cards.map fun c =>
        if c.id = cardC1.id then
          { c with next_show_date :=
              0 + f32_as_i64 (arm_of (next_states_for fsrsConst 0 storeC1 cardC1.id cardC1.created_at) 3).interval }
        else c) :=
  C1_revise_commits_truncated_preview_arm fsrsConst 0 storeC1 1 cardC1 3 rfl
    (by decide) (by decide)

/-- C1 counterexample: as stated the claim is false — with the good arm at
2.7 days the commit stores `interval = 2` (truncation) while the preview
shows `round(2.7) = 3`, so the committed interval is not the rounded preview
value. -/
theorem C1_counterexample :
    ((revise_card fsrsConst 0 storeC1 1 3).toOption.map fun s1 =>
      (s1.revlog.map fun r => r.interval).getLast?) = some (some 2) ∧
    preview_lookup (get_next_dates fsrsConst 0 storeC1 (summary_of_card cardC1))
      "good" = some 3 ∧
    ((2 : Rat) ≠ (3 : Rat)) := ⟨rfl, by decide, by decide⟩

end Revise
